import Mathlib

/-!
Verification development for the change-range resolution logic of
`src/components/page-details.jsx` (web-monitoring-ui).

The JavaScript component is shallowly embedded below:

* `Version` and `Page` mirror the data model (a page owns a list of
  versions ordered by capture time, descending).
* `splitDots` mirrors the semantics of the JavaScript call
  `token.split("..")` for the concrete two character separator:
  leftmost, non-overlapping matches.
* `decodeToken` mirrors line 178,
  `const [fromId, toId] = (change || "").split("..")`:
  the first array slot is always a string, the second may be `undefined`
  (modelled as `Option String`).
* `encodeToken` and `getChangeUrl` mirror `_getChangeUrl` (lines 201-205).
* `versionsToRender` mirrors `_versionsToRender` (lines 177-188).
* `renderChangeCore` / `renderChange` mirror `_renderChange`
  (lines 148-175); the result is in `Except Unit` because the default
  `from` lookup on line 156-157 reads `to.capture_time` inside the
  `find` callback, which would throw if `to` were `undefined` while the
  callback runs; `findOlder` models exactly that dereference.
* `renderPager` mirrors `_renderPager` (lines 111-138), including the
  JavaScript `-1` sentinel of `findIndex` and out-of-range indexing
  returning `undefined`.
* `stepLoad` / `runLoads` mirror `_loadPage` (lines 190-199): the
  promise handler commits `setState` with whatever page arrives,
  unconditionally.
-/

/-- A captured snapshot of a page: identity and capture timestamp. -/
structure Version where
  uuid : String
  capture_time : Nat
deriving Repr, DecidableEq

/-- A monitored page with its version history (most recent first). -/
structure Page where
  uuid : String
  title : String
  url : String
  versions : List Version
deriving Repr, DecidableEq

/-- Leftmost, non-overlapping split on the two character separator
made of two dots, as performed by the JavaScript string split on
line 178.  The result is never empty. -/
def splitDots : List Char → List (List Char)
  | [] => [[]]
  | [c] => [[c]]
  | c :: d :: rest =>
    if c = '.' ∧ d = '.' then [] :: splitDots rest
    else
      match splitDots (d :: rest) with
      | [] => [[c]]
      | p :: ps => (c :: p) :: ps

/-- True when the list of characters has no occurrence of two adjacent
dots. -/
def noDotDot : List Char → Bool
  | [] => true
  | [_] => true
  | c :: d :: rest => !(c = '.' && d = '.') && noDotDot (d :: rest)

/-- True when the list of characters is nonempty and its last character
is a dot. -/
def endsWithDot : List Char → Bool
  | [] => false
  | [c] => c == '.'
  | _ :: d :: rest => endsWithDot (d :: rest)

/-- Line 178: destructuring the result of the split.  The first slot
always receives a string; the second slot is `undefined` when the
separator is absent, modelled as `none`. -/
def decodeToken (token : String) : String × Option String :=
  match splitDots token.data with
  | [] => ("", none)
  | f :: rest => (String.mk f, rest.head?.map String.mk)

/-- Line 202: `(from && to) ? from.uuid ++ ".." ++ to.uuid : ""`. -/
def encodeToken (vFrom vTo : Option Version) : String :=
  match vFrom, vTo with
  | some f, some t => f.uuid ++ ".." ++ t.uuid
  | _, _ => ""

/-- Lines 201-205: the navigation url.  In the source the page id is
`page && page.uuid || this.props.match.params.pageId`, so a given page
with a falsy (empty) uuid also falls back to the route page id. -/
def getChangeUrl (vFrom vTo : Option Version) (page? : Option Page)
    (routePageId : String) : String :=
  let changeId := encodeToken vFrom vTo
  let pageId :=
    match page? with
    | some p => if p.uuid != "" then p.uuid else routePageId
    | none => routePageId
  "/page/" ++ pageId ++ "/" ++ changeId

/-- Lines 177-188: decode the change token and look the two ids up in
the version history; on line 184, `!to || fromId && !from` nulls both
slots out when the pair is invalid. -/
def versionsToRender (page : Page) (change : Option String) :
    Option Version × Option Version :=
  let ids := decodeToken (change.getD "")
  let vFrom := page.versions.find? (fun v => v.uuid == ids.1)
  let vTo :=
    match ids.2 with
    | some t => page.versions.find? (fun v => v.uuid == t)
    | none => none
  if vTo.isNone || (ids.1 != "" && vFrom.isNone) then (none, none)
  else (vFrom, vTo)

/-- The rendered outcome of `_renderChange`: a change view, a corrective
redirect built from the two versions passed to `_getChangeUrl` on
line 160, or the terminal no-saved-versions message. -/
inductive RenderResult where
  | changeView (vFrom vTo : Version)
  | redirect (vFrom vTo : Version)
  | noVersions
deriving Repr, DecidableEq

/-- Lines 156-157: `versions.find(version => version.capture_time <
to.capture_time)`.  The callback dereferences `to`, so running it with
`to` equal to `undefined` throws; the error is only reachable when the
list is nonempty, since `find` on an empty array never invokes the
callback. -/
def findOlder (vTo? : Option Version) : List Version → Except Unit (Option Version)
  | [] => .ok none
  | v :: rest =>
    match vTo? with
    | none => .error ()
    | some t =>
      if v.capture_time < t.capture_time then .ok (some v)
      else findOlder vTo? rest

/-- Lines 154-174, given the pair computed by `_versionsToRender`:
render the change view when both slots are present, otherwise fall back
to `versionData.to || versions[0]` and the nearest strictly older
version, redirecting when that default pair exists and reporting no
saved versions otherwise. -/
def renderChangeCore (versions : List Version)
    (vd : Option Version × Option Version) : Except Unit RenderResult :=
  match vd with
  | (some f, some t) => .ok (.changeView f t)
  | (_, vdTo) =>
    let vTo? :=
      match vdTo with
      | some t => some t
      | none => versions.head?
    (findOlder vTo? versions).map (fun older =>
      let vFrom? :=
        match older with
        | some f => some f
        | none => vTo?
      match vFrom?, vTo? with
      | some f, some t => .redirect f t
      | _, _ => .noVersions)

/-- Lines 148-175: `_renderChange` on a loaded page and the change
route parameter (`none` models an absent parameter). -/
def renderChange (page : Page) (change : Option String) :
    Except Unit RenderResult :=
  renderChangeCore page.versions (versionsToRender page change)

/-- The two links computed by `_renderPager`. -/
structure PagerLinks where
  previousUrl : String
  nextUrl : String
deriving Repr, DecidableEq

/-- JavaScript array indexing with a possibly negative integer index:
out of range yields `undefined`. -/
def jsIndex (l : List Page) (i : Int) : Option Page :=
  if i < 0 then none else l.get? i.toNat

/-- Line 116: `findIndex`, which yields `-1` when the current page is
absent from the list. -/
def findIndexJs (allPages : List Page) (current : Page) : Int :=
  match allPages.findIdx? (fun p => p.uuid == current.uuid) with
  | some i => (i : Int)
  | none => -1

/-- Lines 111-138: `_renderPager`.  `none` for the pages prop models
the early `null` return; `allPages[index - 1]` and `allPages[index + 1]`
degrade to `undefined` out of range, turning the links into the
placeholder. -/
def renderPager (pages? : Option (List Page)) (current : Page) :
    Option PagerLinks :=
  match pages? with
  | none => none
  | some allPages =>
    let index : Int := findIndexJs allPages current
    let previousUrl :=
      match jsIndex allPages (index - 1) with
      | some p => "/page/" ++ p.uuid
      | none => "#"
    let nextPage := if 0 ≤ index then jsIndex allPages (index + 1) else none
    let nextUrl :=
      match nextPage with
      | some p => "/page/" ++ p.uuid
      | none => "#"
    some ⟨previousUrl, nextUrl⟩

/-- An event in the life of `_loadPage`: a call starting a load for a
page id, or the asynchronous resolution of the load for a page id
delivering its page.  The order of resolutions is chosen by the
environment. -/
inductive LoadEvent where
  | start (pageId : String)
  | resolve (pageId : String) (page : Page)
deriving Repr, DecidableEq

/-- Lines 195-198: the then-handler commits `setState` with the page
that arrived, with no staleness check; starting a load records nothing
in component state. -/
def stepLoad (st : Option Page) : LoadEvent → Option Page
  | .start _ => st
  | .resolve _ p => some p

/-- The committed `state.page` after a sequence of load events. -/
def runLoads (st : Option Page) (evts : List LoadEvent) : Option Page :=
  evts.foldl stepLoad st

/-! ### Concrete fixtures used by witnesses and counterexamples -/

def v1 : Version := ⟨"v1", 10⟩

def v2 : Version := ⟨"v2", 20⟩

def v3 : Version := ⟨"v3", 30⟩

/-- A page with three versions, most recent first. -/
def page3 : Page := ⟨"p", "Example", "http://example.com", [v3, v2, v1]⟩

/-- A page with two versions, most recent first. -/
def page2 : Page := ⟨"p2", "Example", "http://example.com", [v2, v1]⟩

/-- A page with no versions. -/
def page0 : Page := ⟨"p0", "Example", "http://example.com", []⟩

/-- A version whose uuid contains the separator characters. -/
def vDots : Version := ⟨"x..y", 10⟩

/-- A page whose only version has a uuid containing the separator. -/
def pageDots : Page := ⟨"pd", "Example", "http://example.com", [vDots]⟩

/-- A version with an ordinary uuid, paired with `vDots`. -/
def vPlain : Version := ⟨"z", 1⟩

def pageA : Page := ⟨"a", "A", "http://a", []⟩

def pageB : Page := ⟨"b", "B", "http://b", []⟩

def pageC : Page := ⟨"c", "C", "http://c", []⟩

def pageX : Page := ⟨"x", "X", "http://x", [⟨"xv", 1⟩]⟩

def pageY : Page := ⟨"y", "Y", "http://y", [⟨"yv", 2⟩]⟩

/-! ### Helper lemmas about the split -/

theorem splitDots_of_noDotDot (l : List Char) (h : noDotDot l = true) :
    splitDots l = [l] := by
  induction l with
  | nil => rfl
  | cons c rest ih =>
    cases rest with
    | nil => rfl
    | cons d rest' =>
      simp only [noDotDot, Bool.and_eq_true] at h
      have hcd : ¬(c = '.' ∧ d = '.') := by
        rcases h.1 with h1
        intro hc
        simp [hc.1, hc.2] at h1
      have ih' := ih h.2
      simp only [splitDots, if_neg hcd, ih']

theorem splitDots_dotdot (b : List Char) :
    splitDots ('.' :: '.' :: b) = [] :: splitDots b := rfl

theorem splitDots_cons_cons (c d : Char) (rest : List Char)
    (h : ¬(c = '.' ∧ d = '.')) :
    splitDots (c :: d :: rest) =
      match splitDots (d :: rest) with
      | [] => [[c]]
      | p :: ps => (c :: p) :: ps := by
  show (if c = '.' ∧ d = '.' then [] :: splitDots rest
    else
      match splitDots (d :: rest) with
      | [] => [[c]]
      | p :: ps => (c :: p) :: ps) =
    match splitDots (d :: rest) with
    | [] => [[c]]
    | p :: ps => (c :: p) :: ps
  rw [if_neg h]

theorem splitDots_append (a b : List Char) (h1 : noDotDot a = true)
    (h2 : endsWithDot a = false) :
    splitDots (a ++ '.' :: '.' :: b) = a :: splitDots b := by
  induction a with
  | nil => exact rfl
  | cons c rest ih =>
    cases rest with
    | nil =>
      have hc : ¬(c = '.') := by
        simp only [endsWithDot] at h2
        simpa using h2
      show splitDots (c :: '.' :: '.' :: b) = [c] :: splitDots b
      rw [splitDots_cons_cons c '.' ('.' :: b) (fun hcd => hc hcd.1),
        splitDots_dotdot]
    | cons d rest' =>
      simp only [noDotDot, Bool.and_eq_true] at h1
      have hcd : ¬(c = '.' ∧ d = '.') := by
        rcases h1.1 with h1a
        intro hc
        simp [hc.1, hc.2] at h1a
      have h2' : endsWithDot (d :: rest') = false := by
        simpa [endsWithDot] using h2
      have ih' := ih h1.2 h2'
      show splitDots (c :: d :: (rest' ++ '.' :: '.' :: b)) =
        (c :: d :: rest') :: splitDots b
      rw [splitDots_cons_cons c d (rest' ++ '.' :: '.' :: b) hcd,
        show d :: (rest' ++ '.' :: '.' :: b) =
          (d :: rest') ++ '.' :: '.' :: b from rfl, ih']

theorem decodeToken_of_noDotDot (s : String) (h : noDotDot s.data = true) :
    decodeToken s = (s, none) := by
  unfold decodeToken
  rw [splitDots_of_noDotDot s.data h]
  rfl

theorem data_append_dotdot (a b : String) :
    (a ++ ".." ++ b).data = a.data ++ '.' :: '.' :: b.data := by
  have h1 : (a ++ ".." ++ b).data = a.data ++ (".." : String).data ++ b.data := rfl
  rw [h1]
  simp

theorem decodeToken_append (a b : String)
    (h1 : noDotDot a.data = true) (h2 : endsWithDot a.data = false)
    (h3 : noDotDot b.data = true) :
    decodeToken (a ++ ".." ++ b) = (a, some b) := by
  unfold decodeToken
  rw [data_append_dotdot, splitDots_append a.data b.data h1 h2,
    splitDots_of_noDotDot b.data h3]
  rfl

/-! ### Helper lemmas about the resolver -/

theorem findOlder_some (t : Version) (vs : List Version) :
    findOlder (some t) vs =
      .ok (vs.find? (fun v => decide (v.capture_time < t.capture_time))) := by
  induction vs with
  | nil => rfl
  | cons v rest ih =>
    show (if v.capture_time < t.capture_time then Except.ok (some v)
      else findOlder (some t) rest) = _
    by_cases h : v.capture_time < t.capture_time
    · rw [if_pos h, List.find?_cons_of_pos _ (by simpa using h)]
    · rw [if_neg h, List.find?_cons_of_neg _ (by simpa using h), ih]

/-- On an invalid pair the fallback target is the head of the history
and the fallback source is the nearest strictly older version, or the
target itself. -/
theorem renderChangeCore_invalid (versions : List Version) (hd : Version)
    (h : versions.head? = some hd) :
    renderChangeCore versions (none, none) =
      .ok (.redirect
        ((versions.find?
          (fun v => decide (v.capture_time < hd.capture_time))).getD hd) hd) := by
  have e : renderChangeCore versions (none, none) =
      (findOlder versions.head? versions).map (fun older =>
        match (match older with
               | some f => some f
               | none => versions.head?), versions.head? with
        | some f, some t => RenderResult.redirect f t
        | _, _ => RenderResult.noVersions) := rfl
  rw [e, h, findOlder_some]
  cases hf : versions.find? (fun v => decide (v.capture_time < hd.capture_time)) with
  | some f => simp [Except.map]
  | none => simp [Except.map]

/-- On a pair whose target resolved but whose source did not (or was
left unspecified), the fallback keeps the resolved target. -/
theorem renderChangeCore_missing_from (versions : List Version) (t : Version) :
    renderChangeCore versions (none, some t) =
      .ok (.redirect
        ((versions.find?
          (fun v => decide (v.capture_time < t.capture_time))).getD t) t) := by
  have e : renderChangeCore versions (none, some t) =
      (findOlder (some t) versions).map (fun older =>
        match (match older with
               | some f => some f
               | none => some t), some t with
        | some f, some t' => RenderResult.redirect f t'
        | _, _ => RenderResult.noVersions) := rfl
  rw [e, findOlder_some]
  cases hf : versions.find? (fun v => decide (v.capture_time < t.capture_time)) with
  | some f => simp [Except.map]
  | none => simp [Except.map]

/-- Substituting a known decoding into `_versionsToRender`. -/
theorem versionsToRender_decode (page : Page) (tok fromId : String)
    (toId? : Option String) (hdec : decodeToken tok = (fromId, toId?)) :
    versionsToRender page (some tok) =
      (let vFrom := page.versions.find? (fun v => v.uuid == fromId)
       let vTo :=
         match toId? with
         | some t => page.versions.find? (fun v => v.uuid == t)
         | none => none
       if vTo.isNone || (fromId != "" && vFrom.isNone) then (none, none)
       else (vFrom, vTo)) := by
  unfold versionsToRender
  rw [show (some tok).getD "" = tok from rfl, hdec]

/-- With an empty version history no id can resolve, so the pair is
always nulled out. -/
theorem versionsToRender_of_nil (page : Page) (h : page.versions = [])
    (change : Option String) :
    versionsToRender page change = (none, none) := by
  rcases hdec : decodeToken (change.getD "") with ⟨fid, tid⟩
  simp only [versionsToRender, hdec, h, List.find?_nil]
  cases tid <;> simp

/-- The target slot of `_versionsToRender` always comes from the
version history. -/
theorem versionsToRender_snd_mem (page : Page) (tok : Option String)
    (v : Version) (h : (versionsToRender page tok).2 = some v) :
    v ∈ page.versions := by
  simp only [versionsToRender] at h
  rw [apply_ite Prod.snd] at h
  split at h
  · simp at h
  · simp only [] at h
    split at h
    · exact List.mem_of_find?_eq_some h
    · simp at h

/-- Both versions of a corrective redirect belong to the history. -/
theorem renderChangeCore_redirect_mem (versions : List Version)
    (vd : Option Version × Option Version) (f t : Version)
    (hvd : ∀ v, vd.2 = some v → v ∈ versions)
    (h : renderChangeCore versions vd = .ok (.redirect f t)) :
    f ∈ versions ∧ t ∈ versions := by
  obtain ⟨vdF, vdT⟩ := vd
  cases vdT with
  | some t' =>
    cases vdF with
    | some f' => simp [renderChangeCore] at h
    | none =>
      have ht' : t' ∈ versions := hvd t' rfl
      rw [renderChangeCore_missing_from] at h
      cases hf : versions.find?
          (fun v => decide (v.capture_time < t'.capture_time)) with
      | some f0 =>
        rw [hf] at h
        simp only [Option.getD_some, Except.ok.injEq,
          RenderResult.redirect.injEq] at h
        rcases h with ⟨hfe, hte⟩
        subst hfe; subst hte
        exact ⟨List.mem_of_find?_eq_some hf, ht'⟩
      | none =>
        rw [hf] at h
        simp only [Option.getD_none, Except.ok.injEq,
          RenderResult.redirect.injEq] at h
        rcases h with ⟨hfe, hte⟩
        subst hfe; subst hte
        exact ⟨ht', ht'⟩
  | none =>
    cases versions with
    | nil =>
      cases vdF <;> simp [renderChangeCore, findOlder, Except.map] at h
    | cons v0 rest =>
      have hv0 : v0 ∈ v0 :: rest := List.mem_cons_self v0 rest
      have e : renderChangeCore (v0 :: rest) (vdF, none) =
          renderChangeCore (v0 :: rest) (none, some v0) := by
        cases vdF <;> rfl
      rw [e, renderChangeCore_missing_from] at h
      cases hf : (v0 :: rest).find?
          (fun v => decide (v.capture_time < v0.capture_time)) with
      | some f0 =>
        rw [hf] at h
        simp only [Option.getD_some, Except.ok.injEq,
          RenderResult.redirect.injEq] at h
        rcases h with ⟨hfe, hte⟩
        subst hfe; subst hte
        exact ⟨List.mem_of_find?_eq_some hf, hv0⟩
      | none =>
        rw [hf] at h
        simp only [Option.getD_none, Except.ok.injEq,
          RenderResult.redirect.injEq] at h
        rcases h with ⟨hfe, hte⟩
        subst hfe; subst hte
        exact ⟨hv0, hv0⟩

/-- A version in the history makes the lookup by its uuid succeed. -/
theorem exists_find_uuid (versions : List Version) (f : Version)
    (hmem : f ∈ versions) :
    ∃ y, versions.find? (fun x => x.uuid == f.uuid) = some y := by
  cases hf : versions.find? (fun x => x.uuid == f.uuid) with
  | some y => exact ⟨y, rfl⟩
  | none =>
    have := List.find?_eq_none.mp hf f hmem
    simp at this

/-! ### Claims -/

/-- Claim C1, counterexample: on a page whose history contains a
version with uuid v2, the token with empty from side and toId v2 does
produce a `Redirect` (to the nearest older version and that version),
contradicting the claim that no redirect is ever issued in this case. -/
theorem c1_counterexample :
    page2.versions.find? (fun x => x.uuid == "v2") = some v2
    ∧ renderChange page2 (some "..v2") = .ok (.redirect v1 v2) :=
  ⟨rfl, rfl⟩

/-- Claim C1, amended: when fromId is empty and toId matches a version
v (and no version carries the empty uuid), `_versionsToRender` does
yield a valid pair with an absent from slot, but `_renderChange` then
issues a `Redirect` whose target is v and whose source is the nearest
version strictly older than v, or v itself when none exists. -/
theorem c1_empty_from_redirects (page : Page) (t : String) (v : Version)
    (ht : noDotDot t.data = true)
    (hv : page.versions.find? (fun x => x.uuid == t) = some v)
    (hemp : page.versions.find? (fun x => x.uuid == "") = none) :
    versionsToRender page (some (".." ++ t)) = (none, some v)
    ∧ renderChange page (some (".." ++ t)) =
        .ok (.redirect
          ((page.versions.find?
            (fun x => decide (x.capture_time < v.capture_time))).getD v) v) := by
  have hdec : decodeToken (".." ++ t) = ("", some t) :=
    decodeToken_append "" t (by decide) (by decide) ht
  have hvdr : versionsToRender page (some (".." ++ t)) = (none, some v) := by
    rw [versionsToRender_decode page (".." ++ t) "" (some t) hdec]
    simp [hv, hemp]
  refine ⟨hvdr, ?_⟩
  unfold renderChange
  rw [hvdr]
  exact renderChangeCore_missing_from page.versions v

/-- Claim C1, witness for the amended statement at a concrete page. -/
theorem c1_witness :
    (noDotDot ("v2" : String).data = true
      ∧ page2.versions.find? (fun x => x.uuid == "v2") = some v2
      ∧ page2.versions.find? (fun x => x.uuid == "") = none)
    ∧ renderChange page2 (some (".." ++ "v2")) =
        .ok (.redirect
          ((page2.versions.find?
            (fun x => decide (x.capture_time < v2.capture_time))).getD v2) v2) :=
  ⟨⟨by decide, by decide, by decide⟩,
    (c1_empty_from_redirects page2 "v2" v2 (by decide) (by decide)
      (by decide)).2⟩

/-- Claim C2, counterexample: a token without the separator is decoded
with the whole token in the from slot and an absent to slot, not the
other way around, and the empty token decodes with an absent to slot. -/
theorem c2_counterexample :
    decodeToken "abc" ≠ ("", some "abc") ∧ decodeToken "" ≠ ("", some "") := by
  constructor <;> decide

/-- Claim C2, amended: for every token without the two character
separator, decoding yields the whole token as fromId and an absent
toId; in particular the empty token decodes to the empty fromId and an
absent toId. -/
theorem c2_decode_no_separator (s : String) (h : noDotDot s.data = true) :
    decodeToken s = (s, none) :=
  decodeToken_of_noDotDot s h

/-- Claim C2, witness at a concrete separator-free token. -/
theorem c2_witness :
    noDotDot ("abc" : String).data = true ∧ decodeToken "abc" = ("abc", none) :=
  ⟨by decide, c2_decode_no_separator "abc" (by decide)⟩

/-- Claim C3, counterexample: history v3, v2, v1 with token zz..v1: the
toId v1 matches a version, the fromId zz matches none, yet the redirect
targets v3 (the most recent version), not the matched v1. -/
theorem c3_counterexample :
    page3.versions.find? (fun x => x.uuid == "v1") = some v1
    ∧ page3.versions.find? (fun x => x.uuid == "zz") = none
    ∧ renderChange page3 (some "zz..v1") = .ok (.redirect v2 v3)
    ∧ v3 ≠ v1 :=
  ⟨rfl, rfl, rfl, by decide⟩

/-- Claim C3, amended: when toId matches a version but fromId is
non-empty and matches none, `_versionsToRender` nulls both slots, so
the redirect targets the most recent version (the head of the
history), not the version matching toId, with the nearest strictly
older version (or the head itself) as source. -/
theorem c3_redirect_to_latest (page : Page) (a t : String) (v hd : Version)
    (ha1 : noDotDot a.data = true) (ha2 : endsWithDot a.data = false)
    (ht : noDotDot t.data = true) (hane : a ≠ "")
    (hto : page.versions.find? (fun x => x.uuid == t) = some v)
    (hfrom : page.versions.find? (fun x => x.uuid == a) = none)
    (hhd : page.versions.head? = some hd) :
    renderChange page (some (a ++ ".." ++ t)) =
      .ok (.redirect
        ((page.versions.find?
          (fun x => decide (x.capture_time < hd.capture_time))).getD hd) hd) := by
  have hdec : decodeToken (a ++ ".." ++ t) = (a, some t) :=
    decodeToken_append a t ha1 ha2 ht
  have hvdr : versionsToRender page (some (a ++ ".." ++ t)) = (none, none) := by
    rw [versionsToRender_decode page (a ++ ".." ++ t) a (some t) hdec]
    simp [hto, hfrom, hane]
  unfold renderChange
  rw [hvdr]
  exact renderChangeCore_invalid page.versions hd hhd

/-- Claim C3, witness for the amended statement at a concrete page. -/
theorem c3_witness :
    (noDotDot ("zz" : String).data = true
      ∧ endsWithDot ("zz" : String).data = false
      ∧ noDotDot ("v1" : String).data = true
      ∧ ("zz" : String) ≠ ""
      ∧ page3.versions.find? (fun x => x.uuid == "v1") = some v1
      ∧ page3.versions.find? (fun x => x.uuid == "zz") = none
      ∧ page3.versions.head? = some v3)
    ∧ renderChange page3 (some ("zz" ++ ".." ++ "v1")) =
        .ok (.redirect
          ((page3.versions.find?
            (fun x => decide (x.capture_time < v3.capture_time))).getD v3) v3) :=
  ⟨⟨by decide, by decide, by decide, by decide, by decide, by decide, by decide⟩,
    c3_redirect_to_latest page3 "zz" "v1" v1 v3 (by decide) (by decide)
      (by decide) (by decide) (by decide) (by decide) (by decide)⟩

/-- Claim C4: with a nonempty history and an empty (or absent) change
token, the result is a redirect whose target is the most recent
version and whose source is the first version in list order strictly
older than the target, or the target itself when none exists. -/
theorem c4_empty_token_redirect (page : Page) (hd : Version)
    (h : page.versions.head? = some hd) :
    renderChange page (some "") =
      .ok (.redirect
        ((page.versions.find?
          (fun v => decide (v.capture_time < hd.capture_time))).getD hd) hd)
    ∧ renderChange page none =
      .ok (.redirect
        ((page.versions.find?
          (fun v => decide (v.capture_time < hd.capture_time))).getD hd) hd) := by
  have h1 : versionsToRender page (some "") = (none, none) := rfl
  have h2 : versionsToRender page none = (none, none) := rfl
  constructor
  · unfold renderChange
    rw [h1]
    exact renderChangeCore_invalid page.versions hd h
  · unfold renderChange
    rw [h2]
    exact renderChangeCore_invalid page.versions hd h

/-- Claim C4, witness: the three-version page redirects from v2 to v3. -/
theorem c4_witness :
    page3.versions.head? = some v3
    ∧ renderChange page3 (some "") = .ok (.redirect v2 v3) :=
  ⟨rfl, by rw [(c4_empty_token_redirect page3 v3 rfl).1]; rfl⟩

/-- Claim C5, counterexample: when the from version's uuid itself
contains the separator, decoding the encoded token does not return the
original pair, so the round trip law fails for arbitrary uuids. -/
theorem c5_counterexample :
    decodeToken (encodeToken (some vDots) (some vPlain))
      ≠ (vDots.uuid, some vPlain.uuid) := by
  decide

/-- Claim C5, amended: the round trip law holds for every pair of
versions whose uuids contain no two adjacent dots and whose from uuid
does not end in a dot. -/
theorem c5_roundtrip (a b : Version)
    (h1 : noDotDot a.uuid.data = true) (h2 : endsWithDot a.uuid.data = false)
    (h3 : noDotDot b.uuid.data = true) :
    decodeToken (encodeToken (some a) (some b)) = (a.uuid, some b.uuid) := by
  show decodeToken (a.uuid ++ ".." ++ b.uuid) = (a.uuid, some b.uuid)
  exact decodeToken_append a.uuid b.uuid h1 h2 h3

/-- Claim C5, witness: the round trip at two ordinary versions. -/
theorem c5_witness :
    (noDotDot v1.uuid.data = true ∧ endsWithDot v1.uuid.data = false
      ∧ noDotDot v2.uuid.data = true)
    ∧ decodeToken (encodeToken (some v1) (some v2)) = (v1.uuid, some v2.uuid) :=
  ⟨⟨by decide, by decide, by decide⟩,
    c5_roundtrip v1 v2 (by decide) (by decide) (by decide)⟩

/-- Claim C6: a loaded page with an empty version history renders the
terminal no-saved-versions state for every change token, issues no
redirect, and the evaluation is total: the default lookups over the
empty list never dereference an absent version (no error escapes). -/
theorem c6_no_versions (page : Page) (h : page.versions = [])
    (change : Option String) :
    renderChange page change = .ok .noVersions := by
  unfold renderChange
  rw [versionsToRender_of_nil page h change, h]
  rfl

/-- Claim C6, witness at the concrete empty-history page. -/
theorem c6_witness :
    page0.versions = []
    ∧ renderChange page0 (some "zz..v1") = .ok .noVersions :=
  ⟨rfl, c6_no_versions page0 rfl (some "zz..v1")⟩

/-- Claim C7: the code commits a late-arriving load result for a stale
page id.  After loading x, then y, with the y request resolving first
and the stale x request resolving last, the committed page is the one
for x, not the one for y, contradicting the stale-load guard the
specification requires. -/
theorem c7_stale_load_committed :
    runLoads none
      [.start "x", .start "y", .resolve "y" pageY, .resolve "x" pageX]
      = some pageX
    ∧ pageX ≠ pageY :=
  ⟨rfl, by decide⟩


/-- Claim C8: sibling-page pager adjacency.  When the current page's
uuid is found at index i, the previous link targets the page at index
i - 1 (a placeholder when i is 0) and the next link targets the page
at index i + 1 (a placeholder when there is none); when the current
page is absent both links are placeholders; the computation is total. -/
theorem c8_pager (pages : List Page) (current : Page) :
    (∀ i : Nat, pages.findIdx? (fun p => p.uuid == current.uuid) = some i →
      renderPager (some pages) current = some ⟨
        (if i = 0 then "#"
         else
           match pages.get? (i - 1) with
           | some p => "/page/" ++ p.uuid
           | none => "#"),
        (match pages.get? (i + 1) with
         | some p => "/page/" ++ p.uuid
         | none => "#")⟩)
    ∧ (pages.findIdx? (fun p => p.uuid == current.uuid) = none →
      renderPager (some pages) current = some ⟨"#", "#"⟩) := by
  constructor
  · intro i hi
    simp only [renderPager, findIndexJs, hi]
    by_cases h0 : i = 0
    · subst h0
      simp [jsIndex]
    · have hpos : 1 ≤ i := Nat.one_le_iff_ne_zero.mpr h0
      have e1 : jsIndex pages ((i : Int) - 1) = pages.get? (i - 1) := by
        unfold jsIndex
        rw [if_neg (by omega)]
        congr 1
        omega
      have e2 : jsIndex pages ((i : Int) + 1) = pages.get? (i + 1) := by
        unfold jsIndex
        rw [if_neg (by omega)]
        congr 1
      rw [if_pos (by omega : (0 : Int) ≤ (i : Int)), e1, e2, if_neg h0]
  · intro hn
    simp only [renderPager, findIndexJs, hn]
    rfl

/-- Claim C8, witness: pages a, b, c with current b give previous a
and next c. -/
theorem c8_witness :
    [pageA, pageB, pageC].findIdx? (fun p => p.uuid == pageB.uuid) = some 1
    ∧ renderPager (some [pageA, pageB, pageC]) pageB
        = some ⟨"/page/a", "/page/c"⟩ :=
  ⟨by decide, by
    have h := (c8_pager [pageA, pageB, pageC] pageB).1 1 (by decide)
    rw [h]
    rfl⟩

/-- Claim C9: the encoder produces the full two-sided token exactly
when both versions are present and the empty string in every other
case, and the navigation url is the page route followed by the encoded
token, with the page id taken from the route when no page argument is
given. -/
theorem c9_encode_url (f t : Version) (o1 o2 : Option Version) (rid : String) :
    encodeToken (some f) (some t) = f.uuid ++ ".." ++ t.uuid
    ∧ encodeToken none o2 = ""
    ∧ encodeToken o1 none = ""
    ∧ getChangeUrl o1 o2 none rid = "/page/" ++ rid ++ "/" ++ encodeToken o1 o2 := by
  refine ⟨rfl, ?_, ?_, rfl⟩
  · cases o2 <;> rfl
  · cases o1 <;> rfl

/-- Claim C10, counterexample: on a page whose only version has a uuid
containing the separator, the empty token redirects, and resolving the
redirect target token redirects again, so one corrective redirect does
not suffice for arbitrary uuids. -/
theorem c10_counterexample :
    renderChange pageDots (some "") = .ok (.redirect vDots vDots)
    ∧ renderChange pageDots (some (encodeToken (some vDots) (some vDots)))
        = .ok (.redirect vDots vDots) :=
  ⟨rfl, rfl⟩

/-- Claim C10, amended: for a page whose version uuids contain no two
adjacent dots and do not end in a dot, any corrective redirect target
re-resolves to a valid pair, so a second redirect never occurs. -/
theorem c10_one_redirect (page : Page) (tok : Option String) (f t : Version)
    (hwf : ∀ v ∈ page.versions,
      noDotDot v.uuid.data = true ∧ endsWithDot v.uuid.data = false)
    (hr : renderChange page tok = .ok (.redirect f t)) :
    ∃ u w, renderChange page (some (encodeToken (some f) (some t)))
      = .ok (.changeView u w) := by
  have hmem : f ∈ page.versions ∧ t ∈ page.versions := by
    refine renderChangeCore_redirect_mem page.versions
      (versionsToRender page tok) f t ?_ hr
    intro v hv
    exact versionsToRender_snd_mem page tok v hv
  obtain ⟨hfm, htm⟩ := hmem
  have hdec : decodeToken (f.uuid ++ ".." ++ t.uuid) = (f.uuid, some t.uuid) :=
    decodeToken_append f.uuid t.uuid (hwf f hfm).1 (hwf f hfm).2 (hwf t htm).1
  obtain ⟨yf, hyf⟩ := exists_find_uuid page.versions f hfm
  obtain ⟨yt, hyt⟩ := exists_find_uuid page.versions t htm
  refine ⟨yf, yt, ?_⟩
  show renderChange page (some (f.uuid ++ ".." ++ t.uuid))
    = .ok (.changeView yf yt)
  unfold renderChange
  rw [versionsToRender_decode page (f.uuid ++ ".." ++ t.uuid) f.uuid
    (some t.uuid) hdec]
  simp only [hyf, hyt, Option.isNone_some, Bool.and_false, Bool.or_false,
    Bool.false_or]
  rfl

/-- Claim C10, witness: a well-formed three-version page redirects on
the empty token and the redirect target resolves without a second
redirect. -/
theorem c10_witness :
    ((∀ v ∈ page3.versions,
        noDotDot v.uuid.data = true ∧ endsWithDot v.uuid.data = false)
      ∧ renderChange page3 (some "") = .ok (.redirect v2 v3))
    ∧ ∃ u w, renderChange page3 (some (encodeToken (some v2) (some v3)))
        = .ok (.changeView u w) :=
  ⟨⟨by decide, rfl⟩,
    c10_one_redirect page3 (some "") v2 v3 (by decide) rfl⟩
